import Mathlib

/-!
Verification of the `AudioESP32ULP` output class (AudioEsp32ULP.h).

The class streams 16-bit audio to the ESP32 DACs through the ULP coprocessor:
the host converts each signed 16-bit sample to an 8-bit DAC code, packs two
codes into one 16-bit ring word, and stores it into RTC slow memory; a small
generated ULP program free-runs over that ring, publishing its read position
into an index cell and dispatching each byte through a 256-entry table of
literal register-write instructions.

This file shallowly embeds, from the source:
  * the memory-layout constants (`opcodeCount`, `indexAddress`, `bufferStart`,
    `totalSampleWords`, `dacTableStart1/2`);
  * the host-side ring producer (`writeFrame`, the frame loop of `write`,
    `availableForWrite`, the host fields mutated by `begin`/`setup`);
  * the generated ULP program (`stereoProgram`), the dispatch-table contents
    built by the `switch (activeDACs)` in `setup` (`setupMem`), and a
    small-step interpreter (`ulpStep`/`ulpRun`) for the ULP instruction forms
    that the program uses;
  * the teardown path of `end` (`endProgram`, `endMem`, `endDacOutputs`).

Hardware primitives (DAC registers, `dac_output_voltage`, `ulp_run`,
`rtc_clk_cal`) are modelled at their interface: the two DAC registers and the
two DAC channels are distinct abstract identifiers, the measured RTC clock
frequency is a parameter, and `ulp_run(0)` is program-counter-0 start of the
interpreter.
-/

set_option maxRecDepth 100000

namespace AudioESP32ULP

/-! ### Memory-layout constants (protected fields of `AudioESP32ULP`) -/

/-- Source: `const int opcodeCount = 20;` -/
def opcodeCount : Nat := 20

/-- Source: `const uint32_t dacTableStart1 = 2048 - 512;` -/
def dacTableStart1 : Nat := 2048 - 512

/-- Source: `const uint32_t dacTableStart2 = dacTableStart1 - 512;` -/
def dacTableStart2 : Nat := dacTableStart1 - 512

/-- Source: `uint32_t totalSampleWords = 2048 - 512 - 512 - (opcodeCount + 1);` -/
def totalSampleWords : Nat := 2048 - 512 - 512 - (opcodeCount + 1)

/-- Source: `const uint32_t indexAddress = opcodeCount;` -/
def indexAddress : Nat := opcodeCount

/-- Source: `const uint32_t bufferStart = indexAddress + 1;` -/
def bufferStart : Nat := indexAddress + 1

/-! ### Host-side mutable state

The host fields mutated by the ring producer: `lastFilledWord` (write cursor),
`bufferedOddSample` and `waitingOddSample` (the odd-sample stage). Their
initial values come from the member initializers in the source
(`int lastFilledWord = 0; uint8_t bufferedOddSample = 128;
bool waitingOddSample = true;`). -/
structure HostState where
  lastFilledWord : Nat
  bufferedOddSample : Nat
  waitingOddSample : Bool
deriving DecidableEq, Repr

/-- The freshly constructed host state. -/
def hostInit : HostState := ⟨0, 128, true⟩

/-- Host-visible effect of `setup()` on the odd-sample stage: only for mono
output the flag is cleared (`if (!stereoOutput) { waitingOddSample = false; }`);
for stereo `setup()` does not touch the stage. -/
def setupHostEffect (stereoOutput : Bool) (st : HostState) : HostState :=
  if !stereoOutput then { st with waitingOddSample := false } else st

/-! ### Sample conversion -/

/-- Source (`writeFrame`): `ms[i] = ((ms[i] >> 8) + 128) & 0xff;` where
`ms[i]` is an `int16_t`. `>> 8` on the sign-extended value is an arithmetic
shift, i.e. flooring division by 256 (`Int.fdiv`); the result of `+ 128` is
within `[0, 255]` for 16-bit inputs, so `& 0xff` is the nonnegative residue
mod 256. -/
def sampleToCode (s : Int) : Nat := ((s.fdiv 256 + 128) % 256).toNat

/-- The pair `(ms[0], ms[1])` after the conversion loop and the mono mixing
step of `writeFrame`:
`if (!stereoOutput) ms[0] = (uint16_t)(((uint32_t)((int32_t)(ms[0]) + (int32_t)(ms[1])) >> 1) & 0xff);` -/
def frameCodes (stereoOutput : Bool) (sample : Int × Int) : Nat × Nat :=
  (if stereoOutput then sampleToCode sample.1
   else ((sampleToCode sample.1 + sampleToCode sample.2) >>> 1) &&& 0xff,
   sampleToCode sample.2)

/-! ### The ring producer (`writeFrame`) -/

/-- Cursor advance of `writeFrame`:
`lastFilledWord++; if (lastFilledWord == totalSampleWords) lastFilledWord = 0;` -/
def nextWord (L : Nat) : Nat := if L + 1 = totalSampleWords then 0 else L + 1

/-- The ring word assembled in the accepting branch of `writeFrame`:
stereo: `w = ms[0]; w |= ms[1] << 8;`;
mono: `w = bufferedOddSample; w |= ms[0] << 8;`. -/
def ringWord (stereoOutput : Bool) (st : HostState) (sample : Int × Int) : Nat :=
  if stereoOutput then
    (frameCodes true sample).1 ||| ((frameCodes true sample).2 <<< 8)
  else
    st.bufferedOddSample ||| ((frameCodes false sample).1 <<< 8)

/-- Shallow embedding of `AudioESP32ULP::writeFrame(int16_t sample[2])`.

`cell` is the value the host reads from `RTC_SLOW_MEM[indexAddress]` at the
start of the call; the source computes
`int currentSample = RTC_SLOW_MEM[indexAddress] & 0xffff;`
`int currentWord = currentSample >> 1;`.

The result is `(returned bool, updated host fields, the RTC_SLOW_MEM store
performed — address and 16-bit word — or none)`. -/
def writeFrame (stereoOutput : Bool) (st : HostState) (cell : Nat)
    (sample : Int × Int) : Bool × HostState × Option (Nat × Nat) :=
  if st.waitingOddSample then
    if st.lastFilledWord ≠ (cell &&& 0xffff) >>> 1 then
      (true,
       ⟨nextWord st.lastFilledWord,
        if stereoOutput then st.bufferedOddSample else 128,
        if stereoOutput then st.waitingOddSample else false⟩,
       some (bufferStart + st.lastFilledWord, ringWord stereoOutput st sample))
    else
      (false, st, none)
  else
    (true, ⟨st.lastFilledWord, (frameCodes stereoOutput sample).1, true⟩, none)

/-- The frame loop of `AudioESP32ULP::write`. Each frame is the `stereo[2]`
array filled from the input: for stereo input the two channel samples, for
mono input the single sample duplicated
(`stereo[1] = stereoOutput ? data_16[pos + 1] : data_16[pos];`).

`write` spins on a rejected `writeFrame` (`while (!writeFrame(stereo))
delay(20);`); under a fixed observed index cell a rejected push stays rejected
forever, so rejection is modelled as `none` (the call never returns). -/
def writeFrames (stereoOutput : Bool) (st : HostState) (cell : Nat) :
    List (Int × Int) → Option (HostState × List (Nat × Nat))
  | [] => some (st, [])
  | f :: fs =>
    let r := writeFrame stereoOutput st cell f
    if r.1 then
      match writeFrames stereoOutput r.2.1 cell fs with
      | some (st', ws) => some (st', r.2.2.toList ++ ws)
      | none => none
    else
      none

/-! ### `availableForWrite` -/

/-- Shallow embedding of `AudioESP32ULP::availableForWrite`:
`int result = totalSampleWords - lastFilledWord;`
`return result < min_write_bytes ? 0 : result;` -/
def availableForWrite (lastFilledWord min_write_bytes : Int) : Int :=
  if (totalSampleWords : Int) - lastFilledWord < min_write_bytes then 0
  else (totalSampleWords : Int) - lastFilledWord

/-- Modelled from the spec: `availableSlots() -> integer`, the
"unread-capacity estimate = capacity − (write cursor − observed read index,
modulo capacity)". Written from the spec's words to compare against the
source's `availableForWrite`. -/
def spec_availableSlots (cursor readIdx capacity : Int) : Int :=
  capacity - (cursor - readIdx) % capacity

/-- Modelled from the spec: `availableForWrite()` "reports
`availableSlots() × frameSize` when above the configured minimum-write
threshold, else 0". Written from the spec's words to compare against the
source's `availableForWrite`. -/
def spec_availableForWrite (cursor readIdx capacity frameSize minWriteBytes : Int) : Int :=
  if minWriteBytes < spec_availableSlots cursor readIdx capacity * frameSize then
    spec_availableSlots cursor readIdx capacity * frameSize
  else 0

/-! ### Theorems for claims C1 and C8 -/

/-- Claim C1, counterexample. The claim states that `availableForWrite()`
returns `availableSlots() × frameSize` (with `availableSlots() = capacity −
((write cursor − observed read index) mod capacity)`) when above the
minimum-write threshold and 0 otherwise. At write cursor 0, observed read
index 2, stereo frame size 4 and the default threshold 128, that formula
yields `(1003 − 1001) × 4 = 8`, which is not above 128, hence 0 — but the
source's `availableForWrite`, which computes `totalSampleWords −
lastFilledWord` without consulting the read index or the frame size, returns
1003. -/
theorem availableForWrite_claim_counterexample :
    availableForWrite 0 128 = 1003 ∧
    spec_availableForWrite 0 2 (totalSampleWords : Int) 4 128 = 0 ∧
    (1003 : Int) ≠ 0 := by
  refine ⟨by decide, ?_, by decide⟩
  decide

/-- Claim C1, amended. `availableForWrite()` returns `totalSampleWords −
lastFilledWord` — that is, the spec's `availableSlots` with the read index
taken as 0, in ring words, not multiplied by the frame size — whenever that
value is at least (not strictly above) `min_write_bytes`, and 0 otherwise. -/
theorem availableForWrite_amended (L m : Int) (h0 : 0 ≤ L)
    (h1 : L < (totalSampleWords : Int)) :
    availableForWrite L m =
      (if spec_availableSlots L 0 (totalSampleWords : Int) < m then 0
       else spec_availableSlots L 0 (totalSampleWords : Int)) := by
  have hC : (totalSampleWords : Int) = 1003 := by decide
  have hmod : (L - 0) % (totalSampleWords : Int) = L := by
    rw [hC] at h1 ⊢
    omega
  unfold availableForWrite spec_availableSlots
  rw [hmod]

/-- Witness for `availableForWrite_amended` at cursor 5, threshold 128. -/
theorem availableForWrite_amended_witness :
    availableForWrite 5 128 =
      (if spec_availableSlots 5 0 (totalSampleWords : Int) < 128 then 0
       else spec_availableSlots 5 0 (totalSampleWords : Int)) :=
  availableForWrite_amended 5 128 (by decide) (by decide)

/-- Claim C8: for every 16-bit signed sample `s`, the 8-bit code computed by
`write`/`writeFrame` is the top 8 bits of `s` offset into the unsigned range:
`((s >> 8) + 128) mod 256 = (s + 32768) / 256` (flooring division), and in
particular −32768 ↦ 0, 0 ↦ 128, 32767 ↦ 255; the `& 0xff` never truncates. -/
theorem sample_conversion (s : Int) (hlo : -32768 ≤ s) (hhi : s ≤ 32767) :
    (sampleToCode s : Int) = (s + 32768).fdiv 256 ∧
    sampleToCode s < 256 ∧
    sampleToCode (-32768) = 0 ∧ sampleToCode 0 = 128 ∧ sampleToCode 32767 = 255 := by
  refine ⟨?_, ?_, by decide, by decide, by decide⟩
  · unfold sampleToCode
    rw [Int.fdiv_eq_ediv _ (by decide), Int.fdiv_eq_ediv _ (by decide)]
    omega
  · unfold sampleToCode
    rw [Int.fdiv_eq_ediv _ (by decide)]
    omega

/-- Witness for `sample_conversion` at the most negative sample. -/
theorem sample_conversion_witness :
    (sampleToCode (-32768) : Int) = ((-32768 : Int) + 32768).fdiv 256 ∧
    sampleToCode (-32768) < 256 ∧
    sampleToCode (-32768) = 0 ∧ sampleToCode 0 = 128 ∧ sampleToCode 32767 = 255 :=
  sample_conversion (-32768) (by decide) (by decide)

/-! ### The ULP side: instructions, generated program, dispatch tables -/

/-- The two RTC DAC pad registers (`RTC_IO_PAD_DAC1_REG`,
`RTC_IO_PAD_DAC2_REG`). They are distinct hardware registers; only their
identity matters here. -/
inductive DacReg where
  | dac1
  | dac2
deriving DecidableEq, Repr

/-- The ULP instruction forms used by the source (the `I_*` assembler macros
of `esp32/ulp.h`). Registers are numbered 0–3 (`R0`–`R3`). `I_ST rs rb off`
stores `rs` to `mem[rb + off]`; `I_LD rd rb off` loads `rd` from
`mem[rb + off]`; `I_BGE off thr` branches by the relative instruction-word
offset `off` when `R0 ≥ thr`; `I_BXR r` / `I_BXI a` jump absolutely to the
address in `r` / the literal `a`; `I_WR_REG reg low high val` writes the
literal `val` into bits `[low, high]` of the peripheral register `reg`. -/
inductive UlpInsn where
  | I_MOVI (rd imm : Nat)
  | I_DELAY (cycles : Nat)
  | I_ST (rs rb off : Nat)
  | I_LD (rd rb off : Nat)
  | I_ANDI (rd rs imm : Nat)
  | I_LSHI (rd rs imm : Nat)
  | I_RSHI (rd rs imm : Nat)
  | I_ADDI (rd rs imm : Nat)
  | I_BXR (rs : Nat)
  | I_BXI (addr : Nat)
  | I_BGE (off : Int) (thr : Nat)
  | I_WR_REG (reg : DacReg) (low high val : Nat)
  | I_END
  | I_HALT
deriving DecidableEq, Repr

/-- One 32-bit word of RTC slow memory: either a plain data word (ring words,
the index cell) or a loaded/encoded instruction (the program, the dispatch
tables). -/
inductive MemWord where
  | data (v : Nat)
  | insn (i : UlpInsn)
deriving DecidableEq, Repr

/-- Source: `int retAddress1 = 9;` -/
def retAddress1 : Nat := 9

/-- Source: `int retAddress2 = 14;` -/
def retAddress2 : Nat := 14

/-- The `stereo[]` ULP control program built in `setup()`, verbatim from the
source (one constructor per `I_*` macro, in order). -/
def stereoProgram (dt dt2 : Nat) : List UlpInsn := [
  .I_MOVI 3 0,
  .I_DELAY dt,
  .I_MOVI 0 0,
  .I_ST 0 3 indexAddress,
  .I_LD 1 0 bufferStart,
  .I_ANDI 2 1 0x00ff,
  .I_LSHI 2 2 1,
  .I_ADDI 2 2 dacTableStart1,
  .I_BXR 2,
  .I_DELAY dt2,
  .I_ANDI 2 1 0xff00,
  .I_RSHI 2 2 (8 - 1),
  .I_ADDI 2 2 dacTableStart2,
  .I_BXR 2,
  .I_MOVI 1 0x8080,
  .I_ST 1 0 indexAddress,
  .I_ADDI 0 0 1,
  .I_BGE (-16) totalSampleWords,
  .I_DELAY (dt + 2),
  .I_BXI 3
]

/-- One dispatch-table slot: entry `i` of a table starting at `start` occupies
offsets `2*i` (the `create_I_WR_REG(reg, 19, 26, i)` word) and `2*i + 1` (the
`create_I_BXI(ret)` word). -/
def tableWord (reg : DacReg) (ret : Nat) (off : Nat) : MemWord :=
  if off % 2 = 0 then .insn (.I_WR_REG reg 19 26 (off / 2))
  else .insn (.I_BXI ret)

/-- The dispatch-table region `[dacTableStart2, 2048)` as built by the
`switch (activeDACs)` in `setup()`, case by case:
* `case 1`: both tables are filled with `create_I_WR_REG(RTC_IO_PAD_DAC1_REG, 19, 26, i)`;
* `case 2`: both tables are filled with `create_I_WR_REG(RTC_IO_PAD_DAC2_REG, 19, 26, i)`;
* `case 3`: the first table uses `RTC_IO_PAD_DAC1_REG`, and the second table
  is also written with `RTC_IO_PAD_DAC1_REG` (source lines of `case 3`; the
  trailing comment there reads `dac2: 0x1D4C0122 | (i << 10)`).
Other mask values write nothing (no `default` case); the region is left as
initialised. -/
def dacTableMem (activeDACs a : Nat) : MemWord :=
  match activeDACs with
  | 1 => if dacTableStart1 ≤ a then tableWord .dac1 retAddress1 (a - dacTableStart1)
         else tableWord .dac1 retAddress2 (a - dacTableStart2)
  | 2 => if dacTableStart1 ≤ a then tableWord .dac2 retAddress1 (a - dacTableStart1)
         else tableWord .dac2 retAddress2 (a - dacTableStart2)
  | 3 => if dacTableStart1 ≤ a then tableWord .dac1 retAddress1 (a - dacTableStart1)
         else tableWord .dac1 retAddress2 (a - dacTableStart2)
  | _ => .data 0

/-- The contents of RTC slow memory when `setup()` issues `ulp_run(0)`:
the program loaded at word 0 (`ulp_process_macros_and_load(0, stereo, …)`),
the index cell cleared (`RTC_SLOW_MEM[indexAddress] = 0;`), every ring slot
silenced (`RTC_SLOW_MEM[bufferStart + i] = 0x8080;`), and the dispatch
tables per `dacTableMem`. -/
def setupMem (activeDACs dt dt2 : Nat) : Nat → MemWord := fun a =>
  if a < opcodeCount then .insn ((stereoProgram dt dt2).getD a .I_HALT)
  else if a = indexAddress then .data 0
  else if a < dacTableStart2 then .data 0x8080
  else if a < 2048 then dacTableMem activeDACs a
  else .data 0

/-! ### A small-step ULP interpreter -/

/-- Events observable outside the ULP core: shared-memory stores and loads
(with their effective addresses) and peripheral register writes. -/
inductive UlpEvent where
  | store (addr val : Nat)
  | load (addr : Nat)
  | wrReg (reg : DacReg) (low high val : Nat)
deriving DecidableEq, Repr

/-- ULP machine state: four 16-bit registers, program counter (in memory
words), halt flag, wakeup-timer flag, and the shared memory. -/
structure UlpState where
  r0 : Nat
  r1 : Nat
  r2 : Nat
  r3 : Nat
  pc : Nat
  halted : Bool
  timerOn : Bool
  mem : Nat → MemWord

/-- Read a register by number. -/
def UlpState.reg (st : UlpState) (r : Nat) : Nat :=
  match r with
  | 0 => st.r0
  | 1 => st.r1
  | 2 => st.r2
  | _ => st.r3

/-- Write a register by number, truncating to 16 bits. -/
def UlpState.setReg (st : UlpState) (r v : Nat) : UlpState :=
  match r with
  | 0 => { st with r0 := v % 65536 }
  | 1 => { st with r1 := v % 65536 }
  | 2 => { st with r2 := v % 65536 }
  | _ => { st with r3 := v % 65536 }

/-- Set the program counter. -/
def UlpState.withPC (st : UlpState) (p : Nat) : UlpState := { st with pc := p }

/-- Store a 16-bit value into shared memory. (The hardware `ST` also packs
the PC into the upper half of the 32-bit word; both the host — which masks
with `0xffff` — and the ULP `LD` — which reads the lower half — only observe
the low 16 bits, so the word is modelled as that value.) -/
def UlpState.writeMem (st : UlpState) (a v : Nat) : UlpState :=
  { st with mem := fun x => if x = a then .data (v % 65536) else st.mem x }

/-- One ULP step: fetch at `pc` and execute. A halted machine does not move;
fetching a non-instruction word halts. -/
def ulpStep (st : UlpState) : UlpState × List UlpEvent :=
  if st.halted then (st, [])
  else
    match st.mem st.pc with
    | .data _ => ({ st with halted := true }, [])
    | .insn i =>
      match i with
      | .I_MOVI rd imm => ((st.setReg rd imm).withPC (st.pc + 1), [])
      | .I_DELAY _ => (st.withPC (st.pc + 1), [])
      | .I_ST rs rb off =>
        ((st.writeMem (st.reg rb + off) (st.reg rs)).withPC (st.pc + 1),
         [.store (st.reg rb + off) (st.reg rs)])
      | .I_LD rd rb off =>
        ((st.setReg rd
            (match st.mem (st.reg rb + off) with
             | .data v => v
             | .insn _ => 0)).withPC (st.pc + 1),
         [.load (st.reg rb + off)])
      | .I_ANDI rd rs imm => ((st.setReg rd (st.reg rs &&& imm)).withPC (st.pc + 1), [])
      | .I_LSHI rd rs imm => ((st.setReg rd (st.reg rs <<< imm)).withPC (st.pc + 1), [])
      | .I_RSHI rd rs imm => ((st.setReg rd (st.reg rs >>> imm)).withPC (st.pc + 1), [])
      | .I_ADDI rd rs imm => ((st.setReg rd (st.reg rs + imm)).withPC (st.pc + 1), [])
      | .I_BXR rs => (st.withPC (st.reg rs), [])
      | .I_BXI a => (st.withPC a, [])
      | .I_BGE off thr =>
        if thr ≤ st.r0 then (st.withPC ((st.pc : Int) + off).toNat, [])
        else (st.withPC (st.pc + 1), [])
      | .I_WR_REG reg low high val => (st.withPC (st.pc + 1), [.wrReg reg low high val])
      | .I_END => ({ st with timerOn := false, pc := st.pc + 1 }, [])
      | .I_HALT => ({ st with halted := true }, [])

/-- Run `n` steps, concatenating the event trace. -/
def ulpRun : Nat → UlpState → UlpState × List UlpEvent
  | 0, st => (st, [])
  | n + 1, st =>
    let r := ulpStep st
    let r' := ulpRun n r.1
    (r'.1, r.2 ++ r'.2)

/-- The machine as `ulp_run(0)` starts it: program counter 0, running,
timer armed. -/
def ulpInit (mem : Nat → MemWord) : UlpState :=
  { r0 := 0, r1 := 0, r2 := 0, r3 := 0, pc := 0, halted := false,
    timerOn := true, mem := mem }

/-! ### Theorems for claims C2 and C3 -/

/-- Claim C2 fails on the code: with both outputs active (`activeDACs = 3`,
stereo), the `case 3` table builder writes `I_WR_REG` instructions targeting
`RTC_IO_PAD_DAC1_REG` into **both** tables — every write entry of the table
reached from the low byte (at `dacTableStart1`) *and* every write entry of
the table reached from the high byte (at `dacTableStart2`) targets the first
DAC's register, never the second's, although the `case 3` source comment for
the second table reads `dac2: 0x1D4C0122` and the class doc promises the
right channel on pin 26. -/
theorem stereo_tables_both_target_dac1 :
    ((List.range 256).all fun i =>
      decide (setupMem 3 1 0 (dacTableStart1 + 2 * i) =
        .insn (.I_WR_REG .dac1 19 26 i))) = true ∧
    ((List.range 256).all fun i =>
      decide (setupMem 3 1 0 (dacTableStart2 + 2 * i) =
        .insn (.I_WR_REG .dac1 19 26 i))) = true ∧
    DacReg.dac1 ≠ DacReg.dac2 := by
  refine ⟨?_, ?_, by decide⟩ <;> decide

/-- Claim C3 fails on the code: on the first loop iteration (`R0 = 0`) the
generated program loads the ring word from `bufferStart + 0 = 21`
(`I_LD(R1, R0, bufferStart)`), but the silence store after emitting both
bytes is `I_ST(R1, R0, indexAddress)`, whose effective address is
`indexAddress + 0 = 20` — the index cell itself, not the just-consumed slot.
The trace of the first 20 steps from the post-`setup` state shows the store
landing at `indexAddress`, one word below the address the load read. -/
theorem silence_store_misses_consumed_slot :
    (ulpRun 20 (ulpInit (setupMem 3 1 0))).2 =
      [.store indexAddress 0, .load bufferStart,
       .wrReg .dac1 19 26 128, .wrReg .dac1 19 26 128,
       .store indexAddress 32896] ∧
    indexAddress ≠ bufferStart := by
  exact ⟨by decide, by decide⟩

/-! ### `begin` and `end` -/

/-- `begin`'s active-DAC mask:
`activeDACs = stereoOutput ? 3 : selected_mono_dac;` where
`selected_mono_dac` is `ULP_DAC1 = 1` or `ULP_DAC2 = 2` (default `ULP_DAC1`). -/
def activeDACsFor (channels selected_mono_dac : Nat) : Nat :=
  if channels == 2 then 3 else selected_mono_dac

/-- The relevant fields of `AudioInfo`. -/
structure AudioInfo where
  sample_rate : Nat
  channels : Nat
  bits_per_sample : Nat
deriving DecidableEq, Repr

/-- What a completed `setup()` leaves behind: the delay constants, the RTC
slow memory contents at `ulp_run(0)`, which DACs were enabled (and driven to
mid-scale), and that the ULP was started. `rtcFastFreqHz` is the
runtime-measured ULP clock (`rtc_clk_cal`). -/
structure SetupResult where
  dt : Nat
  dt2 : Nat
  mem : Nat → MemWord
  dacEnabled1 : Bool
  dacEnabled2 : Bool
  ulpStarted : Bool

/-- Shallow embedding of `setup()`'s effects. The delay constants follow the
source: `dt = rtc_fast_freq_hz / hertz - loopCycles` (134) for stereo, and
`dt = … - loopHalfCycles1` (90), `dt2 = … - loopHalfCycles2` (44) for mono
(`dt2` is initialised to 0). The terminal busy-wait on the index cell is
modelled as having completed (the function corresponds to `setup()` having
returned `true`). -/
def setupResult (activeDACs : Nat) (stereoOutput : Bool)
    (rtcFastFreqHz hertz : Nat) : SetupResult :=
  { dt := if stereoOutput then rtcFastFreqHz / hertz - 134
          else rtcFastFreqHz / hertz - 90,
    dt2 := if stereoOutput then 0 else rtcFastFreqHz / hertz - 44,
    mem := setupMem activeDACs
      (if stereoOutput then rtcFastFreqHz / hertz - 134
       else rtcFastFreqHz / hertz - 90)
      (if stereoOutput then 0 else rtcFastFreqHz / hertz - 44),
    dacEnabled1 := activeDACs &&& 1 != 0,
    dacEnabled2 := activeDACs &&& 2 != 0,
    ulpStarted := true }

/-- Shallow embedding of `AudioESP32ULP::begin(AudioInfo)`: records the
configuration, rejects any `bits_per_sample ≠ 16` before `setup()` runs
(returning `false` with no program loaded, no tables built, no DAC enabled
and the ULP not started — `none`), and otherwise performs `setup()`. -/
def begin (selected_mono_dac : Nat) (st : HostState) (info : AudioInfo)
    (rtcFastFreqHz : Nat) : Bool × HostState × Option SetupResult :=
  if info.bits_per_sample ≠ 16 then (false, st, none)
  else
    (true, setupHostEffect (info.channels == 2) st,
     some (setupResult (activeDACsFor info.channels selected_mono_dac)
       (info.channels == 2) rtcFastFreqHz info.sample_rate))

/-- The two-instruction teardown program of `end()`:
`I_END()` (stop the wakeup timer) then `I_HALT()`. -/
def endProgram : List UlpInsn := [.I_END, .I_HALT]

/-- RTC slow memory after `end()`'s
`ulp_process_macros_and_load(0, stopulp, &size)`: the two teardown
instructions overwrite words 0 and 1, the rest is untouched. -/
def endMem (prev : Nat → MemWord) : Nat → MemWord := fun a =>
  if a = 0 then .insn (endProgram.getD 0 .I_HALT)
  else if a = 1 then .insn (endProgram.getD 1 .I_HALT)
  else prev a

/-- The `dac_output_voltage` calls of `end()`, per channel (`none` = the
channel is not written):
`if (activeDACs & 1) dac_output_voltage(DAC_CHANNEL_1, 128);`
`if (activeDACs & 2) dac_output_voltage(DAC_CHANNEL_2, 128);` -/
def endDacOutputs (activeDACs : Nat) : Option Nat × Option Nat :=
  (if activeDACs &&& 1 ≠ 0 then some 128 else none,
   if activeDACs &&& 2 ≠ 0 then some 128 else none)

/-! ### Theorems for claims C6 and C9 -/

/-- Claim C6, counterexample. After a successful mono `begin` on the default
DAC (`channels = 1`, `selected_mono_dac = ULP_DAC1 = 1`, so `activeDACs = 1`),
`end()` writes the mid-scale code only to channel 1; channel 2 is not written
at all (`none`), contradicting "both physical analog outputs are set to the
mid-scale idle code (128)". -/
theorem end_mono_leaves_dac2_untouched :
    activeDACsFor 1 1 = 1 ∧ (endDacOutputs (activeDACsFor 1 1)).2 = none := by
  exact ⟨by decide, by decide⟩

/-- Helper: a halted ULP machine does not move and emits nothing. -/
theorem ulpStep_halted (st : UlpState) (h : st.halted = true) :
    ulpStep st = (st, []) := by
  unfold ulpStep
  rw [h]
  rfl

/-- Helper: running a halted ULP machine any number of steps changes
nothing. -/
theorem ulpRun_halted (n : Nat) (st : UlpState) (h : st.halted = true) :
    ulpRun n st = (st, []) := by
  induction n with
  | zero => rfl
  | succ m ih =>
    show (let r := ulpStep st; let r' := ulpRun m r.1; (r'.1, r.2 ++ r'.2)) = (st, [])
    rw [ulpStep_halted st h]
    simp [ih]

/-- Claim C6, amended. `end()` loads the two-instruction halt program and
starts it: after two steps the satellite is halted, and from then on no
further step changes the machine or emits an event, so the read-index cell
(and all of memory) never changes again — in particular the index cell still
holds whatever the previous memory held there. On the host side, `end()`
drives every *active* output (per the active-DAC mask) to the mid-scale code
128: both outputs in stereo, only the selected one in mono. -/
theorem end_halts_and_sets_active_outputs (activeDACs : Nat)
    (prev : Nat → MemWord) (n : Nat) :
    (activeDACs &&& 1 ≠ 0 → (endDacOutputs activeDACs).1 = some 128) ∧
    (activeDACs &&& 2 ≠ 0 → (endDacOutputs activeDACs).2 = some 128) ∧
    (ulpRun 2 (ulpInit (endMem prev))).1.halted = true ∧
    ulpRun n (ulpRun 2 (ulpInit (endMem prev))).1 =
      ((ulpRun 2 (ulpInit (endMem prev))).1, []) ∧
    ((ulpRun n (ulpRun 2 (ulpInit (endMem prev))).1).1).mem indexAddress =
      prev indexAddress := by
  have hhalt : (ulpRun 2 (ulpInit (endMem prev))).1.halted = true := rfl
  have hrun := ulpRun_halted n _ hhalt
  refine ⟨fun h => ?_, fun h => ?_, hhalt, hrun, ?_⟩
  · show (if activeDACs &&& 1 ≠ 0 then some 128 else none) = some 128
    rw [if_pos h]
  · show (if activeDACs &&& 2 ≠ 0 then some 128 else none) = some 128
    rw [if_pos h]
  · rw [hrun]
    rfl

/-- Witness for `end_halts_and_sets_active_outputs` in the stereo
configuration (`activeDACs = 3`). -/
theorem end_halts_and_sets_active_outputs_witness :
    (endDacOutputs 3).1 = some 128 ∧ (endDacOutputs 3).2 = some 128 :=
  ⟨(end_halts_and_sets_active_outputs 3 (fun _ => .data 0) 0).1 (by decide),
   (end_halts_and_sets_active_outputs 3 (fun _ => .data 0) 0).2.1 (by decide)⟩

/-- Claim C9: `begin` with a sample width other than 16 bits returns `false`
synchronously — no ULP start, no program or tables (no `SetupResult` at all),
host ring state untouched; with 16-bit width it proceeds to the full
`setup()`. -/
theorem begin_rejects_unsupported_width (dac : Nat) (st : HostState)
    (info : AudioInfo) (freq : Nat) :
    (info.bits_per_sample ≠ 16 → begin dac st info freq = (false, st, none)) ∧
    (info.bits_per_sample = 16 →
      begin dac st info freq =
        (true, setupHostEffect (info.channels == 2) st,
         some (setupResult (activeDACsFor info.channels dac)
           (info.channels == 2) freq info.sample_rate))) := by
  constructor
  · intro h
    simp [begin, h]
  · intro h
    simp [begin, h]

/-- Witness for `begin_rejects_unsupported_width`: 8-bit width is rejected
with nothing run; 16-bit stereo width proceeds to `setup()`. -/
theorem begin_rejects_unsupported_width_witness :
    begin 1 hostInit ⟨44100, 2, 8⟩ 8000000 = (false, hostInit, none) ∧
    begin 1 hostInit ⟨44100, 2, 16⟩ 8000000 =
      (true, setupHostEffect true hostInit,
       some (setupResult 3 true 8000000 44100)) :=
  ⟨(begin_rejects_unsupported_width 1 hostInit ⟨44100, 2, 8⟩ 8000000).1 (by decide),
   (begin_rejects_unsupported_width 1 hostInit ⟨44100, 2, 16⟩ 8000000).2 rfl⟩

/-! ### Theorem for claim C5 -/

/-- Claim C5 fails on the code: `setup()` clears `waitingOddSample` for mono
but never sets it back for stereo, so the flag survives a mono session into
a stereo one. Scenario, fully evaluated: after a fresh mono `begin`
(`waitingOddSample := false`) and two mono frames, the host state is
`⟨1, 128, false⟩`; a subsequent stereo `begin` leaves that state unchanged,
and the first stereo `writeFrame` then takes the staging branch — it reports
the frame consumed (`true`), pushes **no** ring word (`none`), and mutates
both `bufferedOddSample` (to the frame's code 129) and `waitingOddSample`,
contradicting "the staging cell and flag are neither consulted nor modified"
and "every input frame directly forms one ring word" for stereo. -/
theorem stereo_after_mono_consumes_frame_without_push :
    writeFrames false (setupHostEffect false hostInit) 4 [(0, 0), (0, 0)] =
      some (⟨1, 128, false⟩, [(bufferStart, 32896)]) ∧
    setupHostEffect true ⟨1, 128, false⟩ = ⟨1, 128, false⟩ ∧
    writeFrame true (setupHostEffect true ⟨1, 128, false⟩) 4 (256, 256) =
      (true, ⟨1, 129, true⟩, none) := by
  exact ⟨by decide, rfl, by decide⟩

/-! ### Theorems for claim C4 -/

/-- The host state during a (fresh-boot) stereo session: write cursor `L`,
odd-sample stage at its initial values. -/
def stereoSt (L : Nat) : HostState := ⟨L, 128, true⟩

/-- Repeated `writeFrame` calls under a fixed observed index-cell value
(the claim's "non-advancing read index"), recording each returned Bool. -/
def pushSeq (cell : Nat) (s : Int × Int) : Nat → HostState → List Bool × HostState
  | 0, st => ([], st)
  | n + 1, st =>
    let r := writeFrame true st cell s
    let rest := pushSeq cell s n r.2.1
    (r.1 :: rest.1, rest.2)

/-- Claim C4, counterexample. With the observed index cell stuck at 0 and the
write cursor at 0 (a fresh stereo session), the very *first* push is rejected
with no mutation: the code treats cursor = observed word as "full" even when
nothing was ever written, so the claimed "exactly C − 1 pushes are accepted
regardless of where the cursor and stuck index lie" fails (it would require
the first 1002 pushes to succeed). -/
theorem full_buffer_first_push_rejected :
    writeFrame true (stereoSt 0) 0 (0, 0) = (false, stereoSt 0, none) ∧
    totalSampleWords - 1 = 1002 := by
  exact ⟨by decide, by decide⟩

/-- Helper: an accepted stereo push advances the cursor and stores at
`bufferStart + cursor`. `h0` abbreviates the word index the host derives from
the observed cell (`(cell & 0xffff) >> 1`). -/
theorem writeFrame_stereo_accept (v : Nat) (s : Int × Int) (L h0 : Nat)
    (hv : (v &&& 0xffff) >>> 1 = h0) (h : L ≠ h0) :
    writeFrame true (stereoSt L) v s =
      (true, stereoSt (nextWord L),
       some (bufferStart + L, ringWord true (stereoSt L) s)) := by
  rw [← hv] at h
  simp [writeFrame, stereoSt, h]

/-- Helper: a stereo push with the cursor equal to the derived word index is
rejected with no state change and no store. -/
theorem writeFrame_stereo_reject (v : Nat) (s : Int × Int) (h0 : Nat)
    (hv : (v &&& 0xffff) >>> 1 = h0) :
    writeFrame true (stereoSt h0) v s = (false, stereoSt h0, none) := by
  simp [writeFrame, stereoSt, hv]

/-- Helper for claim C4: from cursor `L` with the observed cell value `v`
fixed (derived word index `h0`), exactly
`if L ≤ h0 then h0 - L else h0 + capacity - L` pushes are accepted before the
first rejection, and the cursor then rests at `h0`. -/
theorem pushSeq_count_aux (v h0 : Nat) (s : Int × Int)
    (hv : (v &&& 0xffff) >>> 1 = h0) :
    ∀ (k L : Nat), L < totalSampleWords → h0 < totalSampleWords →
      (if L ≤ h0 then h0 - L else h0 + totalSampleWords - L) = k →
      pushSeq v s (k + 1) (stereoSt L) =
        (List.replicate k true ++ [false], stereoSt h0) := by
  have hC : totalSampleWords = 1003 := rfl
  intro k
  induction k with
  | zero =>
    intro L hL hh hk
    have hLh : L = h0 := by
      by_cases hc : L ≤ h0
      · rw [if_pos hc] at hk; omega
      · rw [if_neg hc] at hk; omega
    subst hLh
    simp [pushSeq, writeFrame_stereo_reject v s L hv]
  | succ n ih =>
    intro L hL hh hk
    have hne : L ≠ h0 := by
      intro he
      rw [he, if_pos (Nat.le_refl h0)] at hk
      omega
    have hnextlt : nextWord L < totalSampleWords := by
      rw [nextWord]
      split <;> omega
    have hk' : (if nextWord L ≤ h0 then h0 - nextWord L
                else h0 + totalSampleWords - nextWord L) = n := by
      rw [nextWord]
      by_cases hw : L + 1 = totalSampleWords
      · rw [if_pos hw]
        rw [if_pos (Nat.zero_le h0)]
        by_cases hc : L ≤ h0
        · rw [if_pos hc] at hk; omega
        · rw [if_neg hc] at hk; omega
      · rw [if_neg hw]
        by_cases hc2 : L + 1 ≤ h0
        · rw [if_pos hc2]
          rw [if_pos (by omega : L ≤ h0)] at hk
          omega
        · rw [if_neg hc2]
          by_cases hc : L ≤ h0
          · rw [if_pos hc] at hk
            have hLe : L = h0 := by omega
            exact absurd hLe hne
          · rw [if_neg hc] at hk; omega
    have hrec := ih (nextWord L) hnextlt hh hk'
    show ((writeFrame true (stereoSt L) v s).1 ::
            (pushSeq v s (n + 1) (writeFrame true (stereoSt L) v s).2.1).1,
          (pushSeq v s (n + 1) (writeFrame true (stereoSt L) v s).2.1).2) =
        (List.replicate (n + 1) true ++ [false], stereoSt h0)
    rw [writeFrame_stereo_accept v s L h0 hv hne]
    show (true :: (pushSeq v s (n + 1) (stereoSt (nextWord L))).1,
          (pushSeq v s (n + 1) (stereoSt (nextWord L))).2) =
        (List.replicate (n + 1) true ++ [false], stereoSt h0)
    rw [hrec]
    simp [List.replicate_succ]

/-- Claim C4, amended. Under a non-advancing observed index cell `v`, with
derived word index `h0 = (v & 0xffff) >> 1 < capacity` and starting cursor
`L < capacity`, exactly `(h0 − L) mod capacity` — written
`if L ≤ h0 then h0 − L else h0 + capacity − L` — consecutive stereo pushes
are accepted (at most capacity − 1, and capacity − 1 only when the cursor
starts just past `h0`); the next push is rejected, returning `false` with no
mutation of the host state and no store. Note the code compares the cursor
against the *halved* cell value (`currentWord = currentSample >> 1`), not
the cell value itself. -/
theorem pushSeq_accepted_count (v L : Nat) (s : Int × Int)
    (hL : L < totalSampleWords)
    (hh : (v &&& 0xffff) >>> 1 < totalSampleWords) :
    pushSeq v s ((if L ≤ (v &&& 0xffff) >>> 1 then (v &&& 0xffff) >>> 1 - L
        else (v &&& 0xffff) >>> 1 + totalSampleWords - L) + 1) (stereoSt L) =
      (List.replicate (if L ≤ (v &&& 0xffff) >>> 1 then (v &&& 0xffff) >>> 1 - L
        else (v &&& 0xffff) >>> 1 + totalSampleWords - L) true ++ [false],
       stereoSt ((v &&& 0xffff) >>> 1)) ∧
    writeFrame true (stereoSt ((v &&& 0xffff) >>> 1)) v s =
      (false, stereoSt ((v &&& 0xffff) >>> 1), none) :=
  ⟨pushSeq_count_aux v ((v &&& 0xffff) >>> 1) s rfl _ L hL hh rfl,
   writeFrame_stereo_reject v s ((v &&& 0xffff) >>> 1) rfl⟩

/-- Witness for `pushSeq_accepted_count`: cell stuck at 4 (derived word
index 2), cursor 0 — two pushes accepted, the third rejected. -/
theorem pushSeq_accepted_count_witness :
    pushSeq 4 (0, 0) 3 (stereoSt 0) = ([true, true, false], stereoSt 2) ∧
    writeFrame true (stereoSt 2) 4 (0, 0) = (false, stereoSt 2, none) :=
  pushSeq_accepted_count 4 0 (0, 0) (by decide) (by decide)

/-! ### Theorem for claim C10 -/

/-- Claim C10: the shared-memory layout is pairwise disjoint within the
2048-word region — program words `[0, 20)`, index cell at word 20, ring
buffer `[21, 1024)`, second dispatch table `[1024, 1536)`, first dispatch
table `[1536, 2048)` — and every store an accepted `writeFrame` performs
(at `bufferStart + lastFilledWord` with `lastFilledWord < totalSampleWords`)
lands inside the ring-buffer region, never on the program, the index cell or
either table. -/
theorem memory_layout_disjoint :
    ((∀ dt dt2, (stereoProgram dt dt2).length = opcodeCount) ∧
     opcodeCount = 20 ∧ indexAddress = 20 ∧ bufferStart = 21 ∧
     totalSampleWords = 1003 ∧
     bufferStart + totalSampleWords = dacTableStart2 ∧
     dacTableStart2 + 512 = dacTableStart1 ∧
     dacTableStart1 + 512 = 2048) ∧
    ∀ (stereoOutput : Bool) (st : HostState) (cell : Nat) (s : Int × Int)
      (addr w : Nat),
      st.lastFilledWord < totalSampleWords →
      (writeFrame stereoOutput st cell s).2.2 = some (addr, w) →
      bufferStart ≤ addr ∧ addr < dacTableStart2 := by
  constructor
  · exact ⟨fun _ _ => rfl, rfl, rfl, rfl, rfl, rfl, rfl, rfl⟩
  · intro so st cell s addr w hlt hsome
    unfold writeFrame at hsome
    by_cases h1 : st.waitingOddSample = true
    · rw [if_pos h1] at hsome
      by_cases h2 : st.lastFilledWord ≠ (cell &&& 0xffff) >>> 1
      · rw [if_pos h2] at hsome
        simp only [Option.some.injEq, Prod.mk.injEq] at hsome
        have hC : totalSampleWords = 1003 := rfl
        have hb : bufferStart = 21 := rfl
        have hd : dacTableStart2 = 1024 := rfl
        omega
      · rw [if_neg h2] at hsome
        simp at hsome
    · rw [if_neg h1] at hsome
      simp at hsome

/-- Witness for `memory_layout_disjoint`: the store of the first accepted
stereo push lands at word 21, inside the ring-buffer region. -/
theorem memory_layout_disjoint_witness :
    bufferStart ≤ 21 ∧ 21 < dacTableStart2 :=
  memory_layout_disjoint.2 true (stereoSt 0) 65535 (0, 0) 21 32896
    (by decide) (by decide)

/-! ### Theorems for claim C7 (mono pairing) -/

/-- Induction on a list two elements at a time, matching the shape of the
mono pairing state machine. -/
theorem list_pair_induction {α : Type} {P : List α → Prop}
    (h0 : P []) (h1 : ∀ s, P [s])
    (h2 : ∀ s0 s1 rest, P rest → P (s0 :: s1 :: rest)) : ∀ l, P l := by
  have key : ∀ l, P l ∧ ∀ s, P (s :: l) := by
    intro l
    induction l with
    | nil => exact ⟨h0, h1⟩
    | cons a t ih => exact ⟨ih.2 a, fun s => h2 s a t ih.1⟩
  exact fun l => (key l).1

/-- Helper: every converted sample code is an 8-bit value. -/
theorem sampleToCode_lt (s : Int) : sampleToCode s < 256 := by
  unfold sampleToCode
  rw [Int.fdiv_eq_ediv _ (by decide)]
  omega

/-- Helper: in mono mode, `write` duplicates the single sample into both
slots of the frame, and the mixing step then averages two equal codes —
yielding the sample's own code. -/
theorem monoMix (s : Int) : (frameCodes false (s, s)).1 = sampleToCode s := by
  have h := sampleToCode_lt s
  show ((sampleToCode s + sampleToCode s) >>> 1) &&& 0xff = sampleToCode s
  rw [Nat.shiftRight_one]
  have h2 : (sampleToCode s + sampleToCode s) / 2 = sampleToCode s := by omega
  rw [h2]
  have h3 := Nat.and_pow_two_sub_one_eq_mod (sampleToCode s) 8
  norm_num at h3
  rw [h3]
  omega

/-- Helper: packing a byte `a` with a byte `b` shifted left by 8 is exact
base-256 positional composition. -/
theorem lor_shiftLeft_eight (a b : Nat) (ha : a < 256) :
    a ||| (b <<< 8) = 256 * b + a := by
  apply Nat.eq_of_testBit_eq
  intro j
  rw [Nat.testBit_lor, Nat.testBit_shiftLeft]
  have h256 : (256 : Nat) = 2 ^ 8 := by norm_num
  rw [h256] at ha ⊢
  rw [Nat.testBit_mul_pow_two_add b ha j]
  by_cases hj : j < 8
  · rw [if_pos hj]
    have hd : decide (j ≥ 8) = false := by simp; omega
    rw [hd, Bool.false_and, Bool.or_false]
  · rw [if_neg hj]
    have hd : decide (j ≥ 8) = true := by simp; omega
    rw [hd, Bool.true_and]
    have hf : a.testBit j = false :=
      Nat.testBit_lt_two_pow
        (lt_of_lt_of_le ha (Nat.pow_le_pow_right (by norm_num) (by omega)))
    rw [hf, Bool.false_or]

/-- Helper: low and high byte of a packed ring word. -/
theorem ringWord_bytes (a b : Nat) (ha : a < 256) :
    (a ||| (b <<< 8)) % 256 = a ∧ (a ||| (b <<< 8)) / 256 = b := by
  rw [lor_shiftLeft_eight a b ha]
  omega

/-- The ring words that mono pairing is expected to produce from `samples`
starting at write cursor `L`: one word per complete pair, carrying the pair's
codes in (low, high) order; a trailing unpaired sample contributes nothing. -/
def monoWords (L : Nat) : List Int → List (Nat × Nat)
  | s0 :: s1 :: rest =>
    (bufferStart + L, sampleToCode s0 ||| (sampleToCode s1 <<< 8)) ::
      monoWords (L + 1) rest
  | _ => []

/-- The sample left in the odd-sample stage after feeding `samples`: the
final element when the count is odd, nothing when it is even. -/
def monoCarry : List Int → Option Int
  | [] => none
  | [s] => some s
  | _ :: _ :: rest => monoCarry rest

/-- Helper: `monoWords` produces one ring word per complete input pair. -/
theorem monoWords_length (samples : List Int) :
    ∀ L, (monoWords L samples).length = samples.length / 2 := by
  induction samples using list_pair_induction with
  | h0 => intro L; simp [monoWords]
  | h1 s => intro L; simp [monoWords]
  | h2 s0 s1 rest ih =>
    intro L
    show (monoWords (L + 1) rest).length + 1 = (rest.length + 2) / 2
    rw [ih (L + 1)]
    omega

/-- Helper: the `k`-th produced ring word sits at `bufferStart + L + k` and
packs the codes of input samples `2k` (low) and `2k + 1` (high). -/
theorem monoWords_getD (samples : List Int) :
    ∀ L k, 2 * k + 1 < samples.length →
      (monoWords L samples).getD k (0, 0) =
        (bufferStart + L + k,
         sampleToCode (samples.getD (2 * k) 0) |||
           (sampleToCode (samples.getD (2 * k + 1) 0) <<< 8)) := by
  have hgd : ∀ (a b : Int) (l : List Int) (i : Nat),
      (a :: b :: l).getD (i + 2) 0 = l.getD i 0 := by
    intro a b l i
    rw [show i + 2 = i + 1 + 1 from rfl, List.getD_cons_succ, List.getD_cons_succ]
  induction samples using list_pair_induction with
  | h0 => intro L k h; rw [List.length_nil] at h; omega
  | h1 s => intro L k h; rw [List.length_singleton] at h; omega
  | h2 s0 s1 rest ih =>
    intro L k h
    cases k with
    | zero => simp [monoWords]
    | succ m =>
      have hlt : 2 * m + 1 < rest.length := by
        simp [List.length_cons] at h
        omega
      show (monoWords (L + 1) rest).getD m (0, 0) = _
      rw [show 2 * (m + 1) + 1 = (2 * m + 1) + 2 from by ring,
          show 2 * (m + 1) = 2 * m + 2 from by ring,
          hgd, hgd, ih (L + 1) m hlt]
      simp only [Prod.mk.injEq]
      exact ⟨by omega, trivial⟩

/-- Helper: `monoCarry` is `none` exactly for an even number of samples, and
for an odd number it holds the final sample. -/
theorem monoCarry_parity (samples : List Int) :
    (samples.length % 2 = 0 ↔ monoCarry samples = none) ∧
    (samples.length % 2 = 1 → monoCarry samples = samples.getLast?) := by
  induction samples using list_pair_induction with
  | h0 => exact ⟨by simp [monoCarry], by simp⟩
  | h1 s => exact ⟨by simp [monoCarry], by simp [monoCarry]⟩
  | h2 s0 s1 rest ih =>
    have hp : (s0 :: s1 :: rest).length % 2 = rest.length % 2 := by
      simp [List.length_cons]
      omega
    constructor
    · rw [hp]
      show rest.length % 2 = 0 ↔ monoCarry rest = none
      exact ih.1
    · intro h
      rw [hp] at h
      cases rest with
      | nil => exact absurd h (by decide)
      | cons r rs =>
        rw [List.getLast?_cons_cons, List.getLast?_cons_cons]
        exact ih.2 h

/-- Helper: a mono `writeFrame` with the stage empty only stages the frame's
code: no ring word is pushed, the cursor does not move. -/
theorem writeFrame_mono_stage (st : HostState) (cell : Nat) (s : Int)
    (h : st.waitingOddSample = false) :
    writeFrame false st cell (s, s) =
      (true, ⟨st.lastFilledWord, sampleToCode s, true⟩, none) := by
  simp [writeFrame, h, monoMix]

/-- Helper: a mono `writeFrame` with a staged byte and a free slot pushes the
staged byte (low) packed with the new frame's code (high), advances the
cursor, and resets the stage. -/
theorem writeFrame_mono_accept (L b : Nat) (cell : Nat) (s : Int)
    (h : L ≠ (cell &&& 0xffff) >>> 1) :
    writeFrame false ⟨L, b, true⟩ cell (s, s) =
      (true, ⟨nextWord L, 128, false⟩,
       some (bufferStart + L, b ||| (sampleToCode s <<< 8))) := by
  simp [writeFrame, ringWord, h, monoMix]

/-- Helper: the full mono run. Starting from cursor `L` with an empty stage,
feeding `samples` (each duplicated into both frame slots, as `write` does for
mono input) produces exactly the `monoWords` stores, leaves the cursor at
`L + ⌊n/2⌋`, and leaves a trailing odd sample's code staged. -/
theorem writeFrames_mono_run (cell : Nat) (samples : List Int) :
    ∀ L, L + samples.length / 2 < totalSampleWords →
      (∀ j, L ≤ j → j < L + samples.length / 2 → j ≠ (cell &&& 0xffff) >>> 1) →
      writeFrames false ⟨L, 128, false⟩ cell (samples.map fun s => (s, s)) =
        some (⟨L + samples.length / 2,
               (match monoCarry samples with
                | some s => sampleToCode s
                | none => 128),
               (monoCarry samples).isSome⟩,
              monoWords L samples) := by
  induction samples using list_pair_induction with
  | h0 =>
    intro L h1 h2
    simp [writeFrames, monoWords, monoCarry]
  | h1 s =>
    intro L h1 h2
    simp only [List.map_cons, List.map_nil, writeFrames,
      writeFrame_mono_stage ⟨L, 128, false⟩ cell s rfl]
    simp [monoWords, monoCarry]
  | h2 s0 s1 rest ih =>
    intro L h1 h2
    have hC : totalSampleWords = 1003 := rfl
    have hlen2 : (s0 :: s1 :: rest).length / 2 = rest.length / 2 + 1 := by
      simp [List.length_cons]
      omega
    rw [hlen2] at h1 h2 ⊢
    have hne : L ≠ (cell &&& 0xffff) >>> 1 := h2 L (Nat.le_refl L) (by omega)
    have hnw : nextWord L = L + 1 := by
      rw [nextWord, if_neg]
      omega
    have hih := ih (L + 1) (by omega) (fun j hj1 hj2 => h2 j (by omega) (by omega))
    have harith : L + 1 + rest.length / 2 = L + (rest.length / 2 + 1) := by omega
    rw [harith] at hih
    simp only [List.map_cons, writeFrames,
      writeFrame_mono_stage ⟨L, 128, false⟩ cell s0 rfl]
    rw [writeFrame_mono_accept L (sampleToCode s0) cell s1 hne, hnw]
    rw [hih]
    simp [monoWords, monoCarry]

/-- Claim C7: in mono configuration, feeding `samples` (with enough free ring
slots and the observed read index out of the written range) pushes exactly
`⌊n/2⌋` ring words — word `k` packs the code of sample `2k` in its low byte
and the code of sample `2k + 1` in its high byte, at `bufferStart + k` — and
a trailing odd sample is held in the stage (`monoCarry`, the final sample
exactly when `n` is odd), with no ring word containing it pushed. -/
theorem mono_pairing (samples : List Int) (cell : Nat)
    (hcap : samples.length / 2 < totalSampleWords)
    (hcell : ∀ j, j < samples.length / 2 → j ≠ (cell &&& 0xffff) >>> 1) :
    writeFrames false ⟨0, 128, false⟩ cell (samples.map fun s => (s, s)) =
      some (⟨samples.length / 2,
             (match monoCarry samples with
              | some s => sampleToCode s
              | none => 128),
             (monoCarry samples).isSome⟩,
            monoWords 0 samples) ∧
    (samples.length % 2 = 0 ↔ monoCarry samples = none) ∧
    (samples.length % 2 = 1 → monoCarry samples = samples.getLast?) ∧
    (monoWords 0 samples).length = samples.length / 2 ∧
    (∀ k, 2 * k + 1 < samples.length →
      ((monoWords 0 samples).getD k (0, 0)).1 = bufferStart + k ∧
      ((monoWords 0 samples).getD k (0, 0)).2 % 256 =
        sampleToCode (samples.getD (2 * k) 0) ∧
      ((monoWords 0 samples).getD k (0, 0)).2 / 256 =
        sampleToCode (samples.getD (2 * k + 1) 0)) := by
  refine ⟨?_, (monoCarry_parity samples).1, (monoCarry_parity samples).2,
    monoWords_length samples 0, ?_⟩
  · have h := writeFrames_mono_run cell samples 0 (by omega)
      (fun j hj1 hj2 => hcell j (by omega))
    simpa using h
  · intro k hk
    rw [monoWords_getD samples 0 k hk]
    refine ⟨by simp, ?_, ?_⟩
    · exact (ringWord_bytes _ _ (sampleToCode_lt _)).1
    · exact (ringWord_bytes _ _ (sampleToCode_lt _)).2

/-- Witness for `mono_pairing`: three mono samples (0, 256, 512) under an
out-of-range observed index produce one ring word pairing the first two
codes, with the third sample's code staged. -/
theorem mono_pairing_witness :
    writeFrames false ⟨0, 128, false⟩ 65535
        [((0 : Int), (0 : Int)), (256, 256), (512, 512)] =
      some (⟨1, sampleToCode 512, true⟩, monoWords 0 [0, 256, 512]) ∧
    ((monoWords 0 [0, 256, 512]).getD 0 (0, 0)).2 % 256 = sampleToCode 0 ∧
    ((monoWords 0 [0, 256, 512]).getD 0 (0, 0)).2 / 256 = sampleToCode 256 := by
  have h := mono_pairing [0, 256, 512] 65535 (by decide)
    (by
      intro j hj
      simp at hj
      have hc : (65535 &&& 0xffff) >>> 1 = 32767 := by decide
      omega)
  exact ⟨h.1, (h.2.2.2.2 0 (by decide)).2.1, (h.2.2.2.2 0 (by decide)).2.2⟩

end AudioESP32ULP
